import Mathlib

/-!
Verification development for the Security+ Study App core
(`app_core.py`, with the shadowing copies in `security_app.py` and the
export routine of `gui.py`).

Modelling conventions:
* Python floats (the `ease` column, REAL in sqlite) are modelled as exact
  rationals; every literal of the program (2.5, 1.3, 0.1, 0.08, 0.02) is
  carried exactly.  On every value the program actually produces the float
  computation agrees with the rational one (checked for the concrete
  examples below; in particular 0.08 + 0.02 == 0.1 holds for doubles).
* Dates are modelled as absolute day numbers (an integer); `today` is a
  parameter of every date-producing operation.  The program stores dates as
  ISO-8601 `YYYY-MM-DD` text and compares them with sqlite TEXT comparison,
  which on equal-width ISO dates coincides with day-number order, so the
  `<=` of the model is the string `<=` of the program.
* The sqlite tables are modelled as lists kept in insertion order; the
  `INTEGER PRIMARY KEY` id generator is the `nextQid` counter.
* Rows read by `csv.DictReader` are modelled as lookup functions
  `String -> Option String` (mirroring `row.get(key)`); JSON records as a
  structure of optional fields.
-/

/-- Python `round` applied to a value modelled as a rational: round half to
even (the IEEE-754 default used by Python 3), followed by `int(...)`, which
is the identity on the result. -/
def pyRound (x : ℚ) : ℤ :=
  if x - ⌊x⌋ < 1/2 then ⌊x⌋
  else if x - ⌊x⌋ > 1/2 then ⌊x⌋ + 1
  else if ⌊x⌋ % 2 = 0 then ⌊x⌋ else ⌊x⌋ + 1

/-- Python truthiness of an optional string: `None` and the empty string are
falsy. -/
def pyTruthy : Option String → Bool
  | none => false
  | some s => s != ""

/-- Python `a or b` for optional strings (`b` is taken when `a` is falsy). -/
def pyOr (a b : Option String) : Option String :=
  if pyTruthy a then a else b

/-- Python `a or d` with a plain-string default. -/
def pyOrD (a : Option String) (d : String) : String :=
  if pyTruthy a then a.getD d else d

/-- Python `json.dumps(metadata) if metadata else None`; the serialized
payload is modelled as the string itself. -/
def pyMetaStore (m : Option String) : Option String :=
  if pyTruthy m then m else none

/-- A row of the `questions` table. -/
structure Question where
  id : Nat
  domain : String
  question : String
  answer : String
  qtype : String
  metadata : Option String
deriving DecidableEq

/-- A row of the `attempts` table (`correct` is the stored 0/1 integer). -/
structure Attempt where
  question_id : Nat
  correct : ℤ
deriving DecidableEq

/-- A row of the `flashcards` table. -/
structure Flashcard where
  question_id : Nat
  interval : ℤ
  ease : ℚ
  next_review : ℤ
deriving DecidableEq

/-- The whole store: the three tables plus the id generator of the
`questions` table. -/
structure DB where
  questions : List Question
  attempts : List Attempt
  flashcards : List Flashcard
  nextQid : Nat
deriving DecidableEq

/-- Source `add_question(domain, question, answer, qtype, metadata)`:
inserts a row and returns the fresh id. -/
def add_question (domain question answer qtype : String)
    (metadata : Option String) (db : DB) : Nat × DB :=
  (db.nextQid,
   { db with
       questions :=
         db.questions ++ [⟨db.nextQid, domain, question, answer, qtype, pyMetaStore metadata⟩],
       nextQid := db.nextQid + 1 })

/-- Source `_ensure_flashcard_for(question_id)`: creates a flashcards row,
scheduled for today, when none exists for the question. -/
def ensure_flashcard_for (question_id : Nat) (today : ℤ) (db : DB) : DB :=
  if db.flashcards.any (fun f => f.question_id == question_id) then db
  else { db with flashcards := db.flashcards ++ [⟨question_id, 1, 5/2, today⟩] }

/-- The branch of `schedule_update` taken when a flashcards row exists:
the new `(interval, ease)` from the current one and the grading signal. -/
def sm2Step (interval : ℤ) (ease : ℚ) (quality : ℤ) : ℤ × ℚ :=
  if quality < 3 then (1, ease)
  else (pyRound ((interval : ℚ) * ease),
        max (13/10)
          (ease + (1/10 - (5 - (quality : ℚ)) * (8/100 + (5 - (quality : ℚ)) * (2/100)))))

/-- The rewrite the UPDATE statement of `schedule_update` applies to a row
of the flashcards table (`p` is the new interval/ease pair). -/
def updateRow (question_id : Nat) (p : ℤ × ℚ) (today : ℤ) (f : Flashcard) : Flashcard :=
  if f.question_id == question_id then
    { f with interval := p.1, ease := p.2, next_review := today + p.1 }
  else f

/-- Source `schedule_update(question_id, quality)` of `app_core.py`
(lines 210-237): upsert of the flashcards row for the question. -/
def schedule_update (question_id : Nat) (quality : ℤ) (today : ℤ) (db : DB) : DB :=
  match db.flashcards.find? (fun f => f.question_id == question_id) with
  | none =>
      { db with flashcards := db.flashcards ++ [⟨question_id, 1, 5/2, today + 1⟩] }
  | some row =>
      { db with
          flashcards := db.flashcards.map
            (updateRow question_id (sm2Step row.interval row.ease quality) today) }

/-- Ordering used by the due-set selector: ascending `next_review`. -/
def dueOrder (a b : Flashcard × Question) : Prop :=
  a.1.next_review ≤ b.1.next_review

instance : DecidableRel dueOrder := fun a b =>
  Int.decLe a.1.next_review b.1.next_review

instance : IsTotal (Flashcard × Question) dueOrder :=
  ⟨fun a b => Int.le_total a.1.next_review b.1.next_review⟩

instance : IsTrans (Flashcard × Question) dueOrder :=
  ⟨fun _ _ _ h h' => le_trans h h'⟩

/-- Source `due_flashcards()`: joins flashcards with questions on
`question_id = id`, keeps the rows with `next_review <= today`, orders by
`next_review` ascending. -/
def due_flashcards (today : ℤ) (db : DB) : List (Flashcard × Question) :=
  let joined := db.flashcards.flatMap (fun f =>
    (db.questions.filter (fun q => q.id == f.question_id)).map (fun q => (f, q)))
  List.insertionSort dueOrder
    (joined.filter (fun fq => decide (fq.1.next_review ≤ today)))

/-- A row read by `csv.DictReader`, as a lookup from header name to value,
mirroring `row.get(key)`. -/
def CsvRow : Type := String → Option String

/-- Source `import_csv(path)` of `app_core.py` (lines 113-130), modelled on
the already-parsed row sequence; returns the updated store and the `added`
count.  The source wraps `_ensure_flashcard_for` in try/except so that a
flashcard-creation failure cannot abort the import; the model has no
failing operations, so the except arm is unreachable. -/
def import_csv (rows : List CsvRow) (today : ℤ) (db : DB) : DB × Nat :=
  match rows with
  | [] => (db, 0)
  | row :: rest =>
      let domain := pyOrD (pyOr (row "domain") (row "Domain")) "General"
      let q := pyOr (row "question") (row "Question")
      let a := pyOrD (pyOr (row "answer") (row "Answer")) ""
      let t := pyOrD (pyOr (row "type") (row "Type")) "free"
      if pyTruthy q then
        let qd := add_question domain (q.getD "") a t none db
        let r := import_csv rest today (ensure_flashcard_for qd.1 today qd.2)
        (r.1, r.2 + 1)
      else import_csv rest today db

/-- A record of a JSON import file; every key may be absent.  The `type`
key of the file is the field `qtype` here, because `type` is reserved in
Lean. -/
structure JsonItem where
  domain : Option String
  question : Option String
  answer : Option String
  qtype : Option String
  metadata : Option String
deriving DecidableEq

/-- Source `import_json(path)` of `app_core.py` (lines 132-148), modelled on
the already-parsed record sequence.  Note the contrast with `import_csv`:
the fallbacks use `item.get(key, default)`, which applies only when the key
is ABSENT, not when its value is blank. -/
def import_json (items : List JsonItem) (today : ℤ) (db : DB) : DB × Nat :=
  match items with
  | [] => (db, 0)
  | item :: rest =>
      let domain := item.domain.getD "General"
      let q := item.question
      let a := item.answer.getD ""
      let t := item.qtype.getD "free"
      if pyTruthy q then
        let qd := add_question domain (q.getD "") a t item.metadata db
        let r := import_json rest today (ensure_flashcard_for qd.1 today qd.2)
        (r.1, r.2 + 1)
      else import_json rest today db

/-- Source `record_attempt(question_id, correct)`: appends an attempts row
storing the flag as 1 or 0. -/
def record_attempt (question_id : Nat) (correct : Bool) (db : DB) : DB :=
  { db with attempts := db.attempts ++ [⟨question_id, if correct then 1 else 0⟩] }

/-- One output row of `stats_per_domain`. -/
structure DomainStat where
  domain : String
  attempts : Nat
  correct : ℤ
  pct : ℚ
deriving DecidableEq

/-- The aggregation row the GROUP BY of `stats_per_domain` produces for one
domain: `attempts` counts the join rows of the LEFT JOIN whose attempt id
is not NULL, `correct` sums their flags, and the Python side computes
`pct = correct / attempts * 100` guarded by `attempts > 0`. -/
def statsForDomain (db : DB) (d : String) : DomainStat :=
  let joinRows := (db.questions.filter (fun q => q.domain == d)).flatMap (fun q =>
    db.attempts.filter (fun a => a.question_id == q.id))
  let attempts := joinRows.length
  let correct := (joinRows.map (fun a => a.correct)).sum
  ⟨d, attempts, correct,
   if attempts > 0 then (correct : ℚ) / (attempts : ℚ) * 100 else 0⟩

/-- Ordering used by `stats_per_domain`: `attempts` descending. -/
def statOrder (a b : DomainStat) : Prop := b.attempts ≤ a.attempts

instance : DecidableRel statOrder := fun a b =>
  Nat.decLe b.attempts a.attempts

instance : IsTotal DomainStat statOrder :=
  ⟨fun a b => Nat.le_total b.attempts a.attempts⟩

instance : IsTrans DomainStat statOrder :=
  ⟨fun _ _ _ h h' => le_trans h' h⟩

/-- Source `stats_per_domain()` of `app_core.py` (lines 185-207): one row
per distinct domain of the questions table, ordered by attempts
descending. -/
def stats_per_domain (db : DB) : List DomainStat :=
  List.insertionSort statOrder
    ((db.questions.map (fun q => q.domain)).dedup.map (statsForDomain db))

/-- Ordering of `SELECT * FROM questions ORDER BY id`. -/
def idOrder (a b : Question) : Prop := a.id ≤ b.id

instance : DecidableRel idOrder := fun a b => Nat.decLe a.id b.id

instance : IsTotal Question idOrder := ⟨fun a b => Nat.le_total a.id b.id⟩

instance : IsTrans Question idOrder := ⟨fun _ _ _ h h' => le_trans h h'⟩

/-- Source `get_questions(None)`: all questions ordered by id. -/
def get_questions (db : DB) : List Question :=
  List.insertionSort idOrder db.questions

/-- One record written by the export routine: the JSON object with keys
domain, question, answer and type (the latter is the field `qtype` here,
because `type` is reserved in Lean). -/
structure ExportRec where
  domain : String
  question : String
  answer : String
  qtype : String
deriving DecidableEq

/-- Source `export_bank` of `gui.py` (lines 420-438), restricted to the
data it writes: one record per stored question, in id order. -/
def export_question_bank (db : DB) : List ExportRec :=
  (get_questions db).map (fun q => ⟨q.domain, q.question, q.answer, q.qtype⟩)

/-- Reading back a record written by the export: all four keys are present,
no metadata key is written. -/
def ExportRec.toItem (r : ExportRec) : JsonItem :=
  ⟨some r.domain, some r.question, some r.answer, some r.qtype, none⟩

namespace SecurityApp

/-- Source `import_csv(path)` of `security_app.py` (lines 50-62), the copy
that shadows the `app_core` version inside the single-file app: identical
field handling, but no `_ensure_flashcard_for` call. -/
def import_csv (rows : List CsvRow) (db : DB) : DB × Nat :=
  match rows with
  | [] => (db, 0)
  | row :: rest =>
      let domain := pyOrD (pyOr (row "domain") (row "Domain")) "General"
      let q := pyOr (row "question") (row "Question")
      let a := pyOrD (pyOr (row "answer") (row "Answer")) ""
      let t := pyOrD (pyOr (row "type") (row "Type")) "free"
      if pyTruthy q then
        let qd := add_question domain (q.getD "") a t none db
        let r := import_csv rest qd.2
        (r.1, r.2 + 1)
      else import_csv rest db

/-- Source `import_json(path)` of `security_app.py` (lines 64-76): the
shadowing copy, again without the flashcard initialization. -/
def import_json (items : List JsonItem) (db : DB) : DB × Nat :=
  match items with
  | [] => (db, 0)
  | item :: rest =>
      let domain := item.domain.getD "General"
      let q := item.question
      let a := item.answer.getD ""
      let t := item.qtype.getD "free"
      if pyTruthy q then
        let qd := add_question domain (q.getD "") a t item.metadata db
        let r := import_json rest qd.2
        (r.1, r.2 + 1)
      else import_json rest db

end SecurityApp

/-- Well-formedness of the id generator: every flashcards row references a
question id already handed out. -/
def FlashcardsRefPast (db : DB) : Prop :=
  ∀ f ∈ db.flashcards, f.question_id < db.nextQid

/-- The flashcard invariant of the specification: ease at least 1.3 and a
positive interval. -/
def FCInv (f : Flashcard) : Prop :=
  13/10 ≤ f.ease ∧ 1 ≤ f.interval

/-- The invariant for every row of the flashcards table. -/
def FCInvAll (db : DB) : Prop :=
  ∀ f ∈ db.flashcards, FCInv f

/-- A tabular row is accepted when its question field (either header
spelling) is present and non-empty. -/
def csvAccepted (row : CsvRow) : Bool :=
  pyTruthy (pyOr (row "question") (row "Question"))

/-- The question an accepted tabular row inserts, given the id the store
hands out. -/
def csvQuestion (row : CsvRow) (id : Nat) : Question :=
  ⟨id,
   pyOrD (pyOr (row "domain") (row "Domain")) "General",
   (pyOr (row "question") (row "Question")).getD "",
   pyOrD (pyOr (row "answer") (row "Answer")) "",
   pyOrD (pyOr (row "type") (row "Type")) "free",
   none⟩

/-- The questions a tabular import inserts, with ids starting at `n`. -/
def csvNewQuestions : Nat → List CsvRow → List Question
  | _, [] => []
  | n, row :: rest =>
      if csvAccepted row then csvQuestion row n :: csvNewQuestions (n + 1) rest
      else csvNewQuestions n rest

/-- A JSON record is accepted when its question value is present, not null
and non-empty. -/
def jsonAccepted (item : JsonItem) : Bool :=
  pyTruthy item.question

/-- The question an accepted JSON record inserts, given the id the store
hands out. -/
def jsonQuestion (item : JsonItem) (id : Nat) : Question :=
  ⟨id,
   item.domain.getD "General",
   item.question.getD "",
   item.answer.getD "",
   item.qtype.getD "free",
   pyMetaStore item.metadata⟩

/-- The questions a JSON import inserts, with ids starting at `n`. -/
def jsonNewQuestions : Nat → List JsonItem → List Question
  | _, [] => []
  | n, item :: rest =>
      if jsonAccepted item then jsonQuestion item n :: jsonNewQuestions (n + 1) rest
      else jsonNewQuestions n rest

/-- The projection of a question the round-trip example is stated on. -/
def qTuple (q : Question) : String × String × String × String :=
  (q.domain, q.question, q.answer, q.qtype)

/-- Concrete store with one flashcard (interval 1, ease 2.5), for the C1
witness. -/
def exDB1 : DB := ⟨[], [], [⟨1, 1, 5/2, 0⟩], 2⟩

/-- Concrete store with one flashcard at the starting state of the C2
example (interval 1, ease 2.5). -/
def exDB2 : DB := ⟨[], [], [⟨1, 1, 5/2, 0⟩], 2⟩

/-- Concrete store with one flashcard (interval 7, ease 2.5), for the C3
witness. -/
def exDB3 : DB := ⟨[], [], [⟨1, 7, 5/2, 0⟩], 2⟩

/-- The empty store, as created by `init_db` on first run. -/
def emptyDB : DB := ⟨[], [], [], 1⟩

/-- A tabular row with no question value. -/
def exRowMissing : CsvRow := fun k =>
  if k = "domain" then some "Network Security" else none

/-- A valid tabular row. -/
def exRowValid : CsvRow := fun k =>
  if k = "question" then some "What does AES stand for?"
  else if k = "answer" then some "Advanced Encryption Standard"
  else none

/-- A JSON record whose domain key is present but blank. -/
def exItemBlankDomain : JsonItem := ⟨some "", some "Q1", none, none, none⟩

/-- Concrete store with one question, for the C8 witness. -/
def exDB8 : DB := ⟨[⟨1, "General", "Q1", "A1", "free", none⟩], [], [], 2⟩

/-! Shared lemmas about the scheduler. -/

lemma updateRow_question_id (qid : Nat) (p : ℤ × ℚ) (today : ℤ) (f : Flashcard) :
    (updateRow qid p today f).question_id = f.question_id := by
  unfold updateRow
  split <;> rfl

lemma find?_map_updateRow (qid : Nat) (p : ℤ × ℚ) (today : ℤ) (l : List Flashcard) :
    (l.map (updateRow qid p today)).find? (fun f => f.question_id == qid) =
      (l.find? (fun f => f.question_id == qid)).map (updateRow qid p today) := by
  rw [List.find?_map]
  have hp : ((fun f : Flashcard => f.question_id == qid) ∘ updateRow qid p today) =
      (fun f : Flashcard => f.question_id == qid) := by
    funext f
    simp [Function.comp, updateRow_question_id]
  rw [hp]

lemma schedule_update_of_found (qid : Nat) (quality today : ℤ) (db : DB) (row : Flashcard)
    (h : db.flashcards.find? (fun f => f.question_id == qid) = some row) :
    schedule_update qid quality today db =
      { db with
          flashcards := db.flashcards.map
            (updateRow qid (sm2Step row.interval row.ease quality) today) } := by
  unfold schedule_update
  rw [h]

lemma schedule_update_of_absent (qid : Nat) (quality today : ℤ) (db : DB)
    (h : db.flashcards.find? (fun f => f.question_id == qid) = none) :
    schedule_update qid quality today db =
      { db with flashcards := db.flashcards ++ [⟨qid, 1, 5/2, today + 1⟩] } := by
  unfold schedule_update
  rw [h]

lemma updateRow_hit (qid : Nat) (p : ℤ × ℚ) (today : ℤ) (row : Flashcard)
    (h : (row.question_id == qid) = true) :
    updateRow qid p today row =
      ⟨row.question_id, p.1, p.2, today + p.1⟩ := by
  simp [updateRow, h]

lemma schedule_update_found_find (qid : Nat) (quality today : ℤ) (db : DB) (row : Flashcard)
    (hfind : db.flashcards.find? (fun f => f.question_id == qid) = some row) :
    (schedule_update qid quality today db).flashcards.find?
        (fun f => f.question_id == qid) =
      some (updateRow qid (sm2Step row.interval row.ease quality) today row) := by
  rw [schedule_update_of_found qid quality today db row hfind]
  simp only [find?_map_updateRow, hfind, Option.map_some']

/-- C1: for an existing flashcard with state (interval, ease) and any
quality at least 3, `schedule_update` stores interval
`round(interval * ease)` under the rounding of Python (half to even), ease
`max(1.3, ease + 0.1 - (5 - quality) * (0.08 + (5 - quality) * 0.02))`,
and next_review today plus the new interval. -/
theorem schedule_update_success_formula (qid : Nat) (quality today : ℤ) (db : DB)
    (row : Flashcard)
    (hfind : db.flashcards.find? (fun f => f.question_id == qid) = some row)
    (hq : 3 ≤ quality) :
    (schedule_update qid quality today db).flashcards.find?
        (fun f => f.question_id == qid) =
      some ⟨row.question_id,
            pyRound ((row.interval : ℚ) * row.ease),
            max (13/10) (row.ease + 1/10 -
              (5 - (quality : ℚ)) * (8/100 + (5 - (quality : ℚ)) * (2/100))),
            today + pyRound ((row.interval : ℚ) * row.ease)⟩ := by
  have hhit : (row.question_id == qid) = true := by
    simpa using List.find?_some hfind
  rw [schedule_update_found_find qid quality today db row hfind,
      updateRow_hit _ _ _ _ hhit]
  have hs : sm2Step row.interval row.ease quality =
      (pyRound ((row.interval : ℚ) * row.ease),
       max (13/10) (row.ease + 1/10 -
         (5 - (quality : ℚ)) * (8/100 + (5 - (quality : ℚ)) * (2/100)))) := by
    unfold sm2Step
    rw [if_neg (not_lt.mpr hq)]
    have he : row.ease + (1/10 - (5 - (quality : ℚ)) * (8/100 + (5 - (quality : ℚ)) * (2/100))) =
        row.ease + 1/10 - (5 - (quality : ℚ)) * (8/100 + (5 - (quality : ℚ)) * (2/100)) := by
      ring
    rw [he]
  rw [hs]

/-- Witness for C1 at a concrete store: one flashcard with interval 1 and
ease 2.5, graded with quality 4. -/
theorem schedule_update_success_formula_witness :
    exDB1.flashcards.find? (fun f => f.question_id == 1) = some ⟨1, 1, 5/2, 0⟩ ∧
    3 ≤ (4 : ℤ) ∧
    (schedule_update 1 4 0 exDB1).flashcards.find? (fun f => f.question_id == 1) =
      some ⟨(1 : Nat), pyRound ((((1 : ℤ)) : ℚ) * (5/2)),
            max (13/10) ((5/2 : ℚ) + 1/10 -
              (5 - ((4 : ℤ) : ℚ)) * (8/100 + (5 - ((4 : ℤ) : ℚ)) * (2/100))),
            0 + pyRound ((((1 : ℤ)) : ℚ) * (5/2))⟩ :=
  ⟨rfl, by decide,
   schedule_update_success_formula 1 4 0 exDB1 ⟨1, 1, 5/2, 0⟩ rfl (by decide)⟩

/-- C3: for an existing flashcard and any quality below 3,
`schedule_update` resets the interval to 1, keeps the ease, and stores
next_review today + 1. -/
theorem schedule_update_lapse (qid : Nat) (quality today : ℤ) (db : DB)
    (row : Flashcard)
    (hfind : db.flashcards.find? (fun f => f.question_id == qid) = some row)
    (hq : quality < 3) :
    (schedule_update qid quality today db).flashcards.find?
        (fun f => f.question_id == qid) =
      some ⟨row.question_id, 1, row.ease, today + 1⟩ := by
  have hhit : (row.question_id == qid) = true := by
    simpa using List.find?_some hfind
  rw [schedule_update_found_find qid quality today db row hfind,
      updateRow_hit _ _ _ _ hhit]
  have hs : sm2Step row.interval row.ease quality = (1, row.ease) := by
    unfold sm2Step
    rw [if_pos hq]
  rw [hs]

/-- Witness for C3 at a concrete store: a flashcard with interval 7 graded
with quality 0 drops back to interval 1 with its ease kept. -/
theorem schedule_update_lapse_witness :
    exDB3.flashcards.find? (fun f => f.question_id == 1) = some ⟨1, 7, 5/2, 0⟩ ∧
    (0 : ℤ) < 3 ∧
    (schedule_update 1 0 0 exDB3).flashcards.find? (fun f => f.question_id == 1) =
      some ⟨(1 : Nat), 1, (5/2 : ℚ), 0 + 1⟩ :=
  ⟨rfl, by decide,
   schedule_update_lapse 1 0 0 exDB3 ⟨1, 7, 5/2, 0⟩ rfl (by decide)⟩

/-- Counterexample to C2: from interval 1 and ease 2.5, grading with
quality 4 does NOT store the row the claim describes (interval 3,
ease 2.5, next_review today + 3): Python rounds `round(2.5)` half to even,
giving interval 2. -/
theorem schedule_update_quality4_cex :
    (schedule_update 1 4 0 exDB2).flashcards.find? (fun f => f.question_id == 1) ≠
      some ⟨1, 3, 5/2, 0 + 3⟩ := by
  have hstep : sm2Step 1 (5/2) 4 = (2, 5/2) := by
    norm_num [sm2Step, pyRound]
  have hfind : exDB2.flashcards.find? (fun f => f.question_id == 1) =
      some ⟨1, 1, 5/2, 0⟩ := rfl
  rw [schedule_update_found_find 1 4 0 exDB2 ⟨1, 1, 5/2, 0⟩ hfind,
      updateRow_hit _ _ _ _ (by decide), hstep]
  intro hcontra
  simp only [Option.some.injEq, Flashcard.mk.injEq] at hcontra
  exact absurd hcontra.2.1 (by decide)

/-- C2 as amended: from interval 1 and ease 2.5, grading with quality 4
keeps the ease at 2.5 (the formula adds exactly 0), but stores interval
`round(1 * 2.5) = 2` under the half-to-even rounding of Python, and
next_review today + 2. -/
theorem schedule_update_quality4_from_start (qid : Nat) (today : ℤ) (db : DB)
    (row : Flashcard)
    (hfind : db.flashcards.find? (fun f => f.question_id == qid) = some row)
    (hi : row.interval = 1) (he : row.ease = 5/2) :
    (schedule_update qid 4 today db).flashcards.find? (fun f => f.question_id == qid) =
      some ⟨row.question_id, 2, 5/2, today + 2⟩ := by
  have hhit : (row.question_id == qid) = true := by
    simpa using List.find?_some hfind
  rw [schedule_update_found_find qid 4 today db row hfind,
      updateRow_hit _ _ _ _ hhit]
  have hs : sm2Step row.interval row.ease 4 = (2, 5/2) := by
    rw [hi, he]
    norm_num [sm2Step, pyRound]
  rw [hs]

/-- Witness for the amended C2 at a concrete store. -/
theorem schedule_update_quality4_from_start_witness :
    exDB2.flashcards.find? (fun f => f.question_id == 1) = some ⟨1, 1, 5/2, 0⟩ ∧
    (⟨1, 1, 5/2, 0⟩ : Flashcard).interval = 1 ∧
    (⟨1, 1, 5/2, 0⟩ : Flashcard).ease = 5/2 ∧
    (schedule_update 1 4 0 exDB2).flashcards.find? (fun f => f.question_id == 1) =
      some ⟨(1 : Nat), 2, (5/2 : ℚ), 0 + 2⟩ :=
  ⟨rfl, rfl, rfl,
   schedule_update_quality4_from_start 1 0 exDB2 ⟨1, 1, 5/2, 0⟩ rfl rfl rfl⟩

/-! Lemmas for the flashcard invariant. -/

lemma one_le_pyRound (x : ℚ) (h : 1 ≤ x) : 1 ≤ pyRound x := by
  have hf : (1 : ℤ) ≤ ⌊x⌋ := Int.le_floor.mpr (by exact_mod_cast h)
  unfold pyRound
  split_ifs <;> omega

lemma sm2Step_inv (i : ℤ) (e : ℚ) (q : ℤ) (hi : 1 ≤ i) (he : 13/10 ≤ e) :
    13/10 ≤ (sm2Step i e q).2 ∧ 1 ≤ (sm2Step i e q).1 := by
  unfold sm2Step
  split_ifs with h
  · exact ⟨he, le_refl 1⟩
  · refine ⟨le_max_left _ _, one_le_pyRound _ ?_⟩
    have h1 : (1 : ℚ) ≤ (i : ℚ) := by exact_mod_cast hi
    have h2 : (1 : ℚ) ≤ e := le_trans (by norm_num) he
    calc (1 : ℚ) = 1 * 1 := by norm_num
      _ ≤ (i : ℚ) * e := by
          exact mul_le_mul h1 h2 (by norm_num) (le_trans (by norm_num) h1)

lemma FCInvAll_ensure (qid : Nat) (today : ℤ) (db : DB) (hinv : FCInvAll db) :
    FCInvAll (ensure_flashcard_for qid today db) := by
  unfold ensure_flashcard_for
  split
  · exact hinv
  · intro f hf
    rcases List.mem_append.mp hf with h | h
    · exact hinv f h
    · simp only [List.mem_singleton] at h
      subst h
      exact ⟨by norm_num, by norm_num⟩

lemma add_question_flashcards (domain question answer qtype : String)
    (metadata : Option String) (db : DB) :
    (add_question domain question answer qtype metadata db).2.flashcards =
      db.flashcards := rfl

lemma FCInvAll_schedule_update (qid : Nat) (quality today : ℤ) (db : DB)
    (hinv : FCInvAll db) : FCInvAll (schedule_update qid quality today db) := by
  cases hfind : db.flashcards.find? (fun f => f.question_id == qid) with
  | none =>
      rw [schedule_update_of_absent qid quality today db hfind]
      intro f hf
      rcases List.mem_append.mp hf with h | h
      · exact hinv f h
      · simp only [List.mem_singleton] at h
        subst h
        exact ⟨by norm_num, by norm_num⟩
  | some row =>
      rw [schedule_update_of_found qid quality today db row hfind]
      intro f hf
      rcases List.mem_map.mp hf with ⟨g, hg, rfl⟩
      have hrow := hinv row (List.mem_of_find?_eq_some hfind)
      have hstep := sm2Step_inv row.interval row.ease quality hrow.2 hrow.1
      unfold updateRow
      split
      · exact ⟨hstep.1, hstep.2⟩
      · exact hinv g hg

lemma FCInvAll_import_csv (rows : List CsvRow) (today : ℤ) (db : DB)
    (hinv : FCInvAll db) : FCInvAll (import_csv rows today db).1 := by
  induction rows generalizing db with
  | nil => exact hinv
  | cons row rest ih =>
      by_cases hq : pyTruthy (pyOr (row "question") (row "Question"))
      · show FCInvAll (import_csv (row :: rest) today db).1
        unfold import_csv
        rw [if_pos hq]
        exact ih _ (FCInvAll_ensure _ _ _ hinv)
      · show FCInvAll (import_csv (row :: rest) today db).1
        unfold import_csv
        rw [if_neg hq]
        exact ih _ hinv

lemma FCInvAll_import_json (items : List JsonItem) (today : ℤ) (db : DB)
    (hinv : FCInvAll db) : FCInvAll (import_json items today db).1 := by
  induction items generalizing db with
  | nil => exact hinv
  | cons item rest ih =>
      by_cases hq : pyTruthy item.question
      · show FCInvAll (import_json (item :: rest) today db).1
        unfold import_json
        rw [if_pos hq]
        exact ih _ (FCInvAll_ensure _ _ _ hinv)
      · show FCInvAll (import_json (item :: rest) today db).1
        unfold import_json
        rw [if_neg hq]
        exact ih _ hinv

/-- C4: every flashcards row the public operations produce satisfies
ease at least 1.3 and interval at least 1.  Import-time creation writes
(1, 2.5, today); `schedule_update` without an existing row writes
(1, 2.5, today + 1) for every quality; and `schedule_update` on an
existing row, lapse or success branch, preserves the invariant, as do
both import operations. -/
theorem flashcard_rows_invariant (qid : Nat) (quality today : ℤ) (db : DB)
    (hinv : FCInvAll db) :
    ((ensure_flashcard_for qid today db).flashcards = db.flashcards ∨
      (ensure_flashcard_for qid today db).flashcards =
        db.flashcards ++ [⟨qid, 1, 5/2, today⟩]) ∧
    FCInvAll (ensure_flashcard_for qid today db) ∧
    (db.flashcards.find? (fun f => f.question_id == qid) = none →
      (schedule_update qid quality today db).flashcards =
        db.flashcards ++ [⟨qid, 1, 5/2, today + 1⟩]) ∧
    FCInvAll (schedule_update qid quality today db) ∧
    (∀ rows : List CsvRow, FCInvAll (import_csv rows today db).1) ∧
    (∀ items : List JsonItem, FCInvAll (import_json items today db).1) := by
  refine ⟨?_, FCInvAll_ensure qid today db hinv, ?_,
    FCInvAll_schedule_update qid quality today db hinv,
    fun rows => FCInvAll_import_csv rows today db hinv,
    fun items => FCInvAll_import_json items today db hinv⟩
  · unfold ensure_flashcard_for
    split
    · exact Or.inl rfl
    · exact Or.inr rfl
  · intro hfind
    rw [schedule_update_of_absent qid quality today db hfind]

/-- Witness for C4 at the empty store. -/
theorem flashcard_rows_invariant_witness :
    FCInvAll emptyDB ∧
    (((ensure_flashcard_for 1 0 emptyDB).flashcards = emptyDB.flashcards ∨
       (ensure_flashcard_for 1 0 emptyDB).flashcards =
         emptyDB.flashcards ++ [⟨1, 1, 5/2, 0⟩]) ∧
     FCInvAll (ensure_flashcard_for 1 0 emptyDB) ∧
     (emptyDB.flashcards.find? (fun f => f.question_id == 1) = none →
       (schedule_update 1 5 0 emptyDB).flashcards =
         emptyDB.flashcards ++ [⟨1, 1, 5/2, 0 + 1⟩]) ∧
     FCInvAll (schedule_update 1 5 0 emptyDB) ∧
     (∀ rows : List CsvRow, FCInvAll (import_csv rows 0 emptyDB).1) ∧
     (∀ items : List JsonItem, FCInvAll (import_json items 0 emptyDB).1)) :=
  ⟨fun f hf => absurd hf (List.not_mem_nil f),
   flashcard_rows_invariant 1 5 0 emptyDB (fun f hf => absurd hf (List.not_mem_nil f))⟩

/-- C5: `due_flashcards` returns exactly the pairs of a flashcard and its
question with `next_review <= today` (date order, which equals the ISO
string order the query uses), sorted ascending by `next_review`; hence it
never returns a question lacking a flashcard, nor one whose `next_review`
lies strictly after today. -/
lemma mem_due_flashcards (today : ℤ) (db : DB) (p : Flashcard × Question) :
    p ∈ due_flashcards today db ↔
      (p.1 ∈ db.flashcards ∧ p.2 ∈ db.questions ∧ p.2.id = p.1.question_id ∧
       p.1.next_review ≤ today) := by
  unfold due_flashcards
  rw [List.mem_insertionSort]
  simp only [List.mem_filter, List.mem_flatMap, List.mem_map, decide_eq_true_eq]
  constructor
  · rintro ⟨⟨f, hf, q, hq, rfl⟩, hle⟩
    exact ⟨hf, hq.1, by simpa using hq.2, hle⟩
  · rintro ⟨h1, h2, h3, h4⟩
    exact ⟨⟨p.1, h1, p.2, ⟨h2, by simpa using h3⟩, rfl⟩, h4⟩

theorem due_flashcards_spec (today : ℤ) (db : DB) :
    (∀ p : Flashcard × Question,
        p ∈ due_flashcards today db ↔
          (p.1 ∈ db.flashcards ∧ p.2 ∈ db.questions ∧ p.2.id = p.1.question_id ∧
           p.1.next_review ≤ today)) ∧
    List.Sorted dueOrder (due_flashcards today db) :=
  ⟨mem_due_flashcards today db, List.sorted_insertionSort dueOrder _⟩

/-! Lemmas characterizing the import operations. -/

lemma csvNewQuestions_cons_pos (n : Nat) (row : CsvRow) (rest : List CsvRow)
    (h : csvAccepted row = true) :
    csvNewQuestions n (row :: rest) =
      csvQuestion row n :: csvNewQuestions (n + 1) rest := by
  simp [csvNewQuestions, h]

lemma csvNewQuestions_cons_neg (n : Nat) (row : CsvRow) (rest : List CsvRow)
    (h : csvAccepted row = false) :
    csvNewQuestions n (row :: rest) = csvNewQuestions n rest := by
  simp [csvNewQuestions, h]

lemma jsonNewQuestions_cons_pos (n : Nat) (item : JsonItem) (rest : List JsonItem)
    (h : jsonAccepted item = true) :
    jsonNewQuestions n (item :: rest) =
      jsonQuestion item n :: jsonNewQuestions (n + 1) rest := by
  simp [jsonNewQuestions, h]

lemma jsonNewQuestions_cons_neg (n : Nat) (item : JsonItem) (rest : List JsonItem)
    (h : jsonAccepted item = false) :
    jsonNewQuestions n (item :: rest) = jsonNewQuestions n rest := by
  simp [jsonNewQuestions, h]

lemma csvNewQuestions_id_ge (rows : List CsvRow) (n : Nat) :
    ∀ q ∈ csvNewQuestions n rows, n ≤ q.id := by
  induction rows generalizing n with
  | nil =>
      intro q hq
      simp [csvNewQuestions] at hq
  | cons row rest ih =>
      intro q hq
      cases h : csvAccepted row with
      | true =>
          rw [csvNewQuestions_cons_pos n row rest h] at hq
          rcases List.mem_cons.mp hq with rfl | hmem
          · exact le_refl n
          · exact le_trans (Nat.le_succ n) (ih (n + 1) q hmem)
      | false =>
          rw [csvNewQuestions_cons_neg n row rest h] at hq
          exact ih n q hq

lemma jsonNewQuestions_id_ge (items : List JsonItem) (n : Nat) :
    ∀ q ∈ jsonNewQuestions n items, n ≤ q.id := by
  induction items generalizing n with
  | nil =>
      intro q hq
      simp [jsonNewQuestions] at hq
  | cons item rest ih =>
      intro q hq
      cases h : jsonAccepted item with
      | true =>
          rw [jsonNewQuestions_cons_pos n item rest h] at hq
          rcases List.mem_cons.mp hq with rfl | hmem
          · exact le_refl n
          · exact le_trans (Nat.le_succ n) (ih (n + 1) q hmem)
      | false =>
          rw [jsonNewQuestions_cons_neg n item rest h] at hq
          exact ih n q hq

lemma ensure_fresh (qid : Nat) (today : ℤ) (db : DB)
    (hnone : ∀ f ∈ db.flashcards, f.question_id ≠ qid) :
    ensure_flashcard_for qid today db =
      { db with flashcards := db.flashcards ++ [⟨qid, 1, 5/2, today⟩] } := by
  have hany : db.flashcards.any (fun f => f.question_id == qid) = false := by
    rw [List.any_eq_false]
    intro f hf
    simp only [beq_iff_eq]
    exact hnone f hf
  unfold ensure_flashcard_for
  rw [hany]
  simp

lemma csvQuestion_id (row : CsvRow) (n : Nat) : (csvQuestion row n).id = n := rfl

lemma jsonQuestion_id (item : JsonItem) (n : Nat) : (jsonQuestion item n).id = n := rfl

lemma import_csv_cons_pos (row : CsvRow) (rest : List CsvRow) (today : ℤ) (db : DB)
    (h : pyTruthy (pyOr (row "question") (row "Question")) = true) :
    import_csv (row :: rest) today db =
      ((import_csv rest today
          (ensure_flashcard_for db.nextQid today
            { db with
                questions := db.questions ++ [csvQuestion row db.nextQid],
                nextQid := db.nextQid + 1 })).1,
       (import_csv rest today
          (ensure_flashcard_for db.nextQid today
            { db with
                questions := db.questions ++ [csvQuestion row db.nextQid],
                nextQid := db.nextQid + 1 })).2 + 1) := by
  simp only [import_csv, h, if_true]
  rfl

lemma import_csv_cons_neg (row : CsvRow) (rest : List CsvRow) (today : ℤ) (db : DB)
    (h : pyTruthy (pyOr (row "question") (row "Question")) = false) :
    import_csv (row :: rest) today db = import_csv rest today db := by
  simp only [import_csv, h]
  rfl

lemma import_json_cons_pos (item : JsonItem) (rest : List JsonItem) (today : ℤ) (db : DB)
    (h : pyTruthy item.question = true) :
    import_json (item :: rest) today db =
      ((import_json rest today
          (ensure_flashcard_for db.nextQid today
            { db with
                questions := db.questions ++ [jsonQuestion item db.nextQid],
                nextQid := db.nextQid + 1 })).1,
       (import_json rest today
          (ensure_flashcard_for db.nextQid today
            { db with
                questions := db.questions ++ [jsonQuestion item db.nextQid],
                nextQid := db.nextQid + 1 })).2 + 1) := by
  simp only [import_json, h, if_true]
  rfl

lemma import_json_cons_neg (item : JsonItem) (rest : List JsonItem) (today : ℤ) (db : DB)
    (h : pyTruthy item.question = false) :
    import_json (item :: rest) today db = import_json rest today db := by
  simp only [import_json, h]
  rfl

lemma import_csv_run (rows : List CsvRow) (today : ℤ) (db : DB)
    (hwf : FlashcardsRefPast db) :
    import_csv rows today db =
      ({ questions := db.questions ++ csvNewQuestions db.nextQid rows,
         attempts := db.attempts,
         flashcards := db.flashcards ++
           (csvNewQuestions db.nextQid rows).map (fun q => ⟨q.id, 1, 5/2, today⟩),
         nextQid := db.nextQid + rows.countP csvAccepted },
       rows.countP csvAccepted) := by
  induction rows generalizing db with
  | nil =>
      cases db
      simp [import_csv, csvNewQuestions]
  | cons row rest ih =>
      cases h : csvAccepted row with
      | true =>
          have hpy : pyTruthy (pyOr (row "question") (row "Question")) = true := h
          rw [import_csv_cons_pos row rest today db hpy]
          rw [ensure_fresh db.nextQid today _ (by
            intro f hf
            have := hwf f hf
            omega)]
          set db1 : DB :=
            { db with
                questions := db.questions ++ [csvQuestion row db.nextQid],
                flashcards := db.flashcards ++ [⟨db.nextQid, 1, 5/2, today⟩],
                nextQid := db.nextQid + 1 } with hdb1
          have hwf1 : FlashcardsRefPast db1 := by
            intro f hf
            rcases List.mem_append.mp hf with hmem | hmem
            · have := hwf f hmem
              simp only [hdb1]
              omega
            · simp only [List.mem_singleton] at hmem
              subst hmem
              simp [hdb1]
          rw [ih db1 hwf1]
          rw [csvNewQuestions_cons_pos db.nextQid row rest h]
          simp only [hdb1, Prod.mk.injEq, DB.mk.injEq, List.countP_cons, h, if_true,
            List.map_cons, List.append_assoc, List.singleton_append, csvQuestion_id,
            true_and, and_true]
          omega
      | false =>
          have hpy : pyTruthy (pyOr (row "question") (row "Question")) = false := h
          rw [import_csv_cons_neg row rest today db hpy, ih db hwf,
              csvNewQuestions_cons_neg db.nextQid row rest h]
          simp [List.countP_cons, h]

lemma import_json_run (items : List JsonItem) (today : ℤ) (db : DB)
    (hwf : FlashcardsRefPast db) :
    import_json items today db =
      ({ questions := db.questions ++ jsonNewQuestions db.nextQid items,
         attempts := db.attempts,
         flashcards := db.flashcards ++
           (jsonNewQuestions db.nextQid items).map (fun q => ⟨q.id, 1, 5/2, today⟩),
         nextQid := db.nextQid + items.countP jsonAccepted },
       items.countP jsonAccepted) := by
  induction items generalizing db with
  | nil =>
      cases db
      simp [import_json, jsonNewQuestions]
  | cons item rest ih =>
      cases h : jsonAccepted item with
      | true =>
          have hpy : pyTruthy item.question = true := h
          rw [import_json_cons_pos item rest today db hpy]
          rw [ensure_fresh db.nextQid today _ (by
            intro f hf
            have := hwf f hf
            omega)]
          set db1 : DB :=
            { db with
                questions := db.questions ++ [jsonQuestion item db.nextQid],
                flashcards := db.flashcards ++ [⟨db.nextQid, 1, 5/2, today⟩],
                nextQid := db.nextQid + 1 } with hdb1
          have hwf1 : FlashcardsRefPast db1 := by
            intro f hf
            rcases List.mem_append.mp hf with hmem | hmem
            · have := hwf f hmem
              simp only [hdb1]
              omega
            · simp only [List.mem_singleton] at hmem
              subst hmem
              simp [hdb1]
          rw [ih db1 hwf1]
          rw [jsonNewQuestions_cons_pos db.nextQid item rest h]
          simp only [hdb1, Prod.mk.injEq, DB.mk.injEq, List.countP_cons, h, if_true,
            List.map_cons, List.append_assoc, List.singleton_append, jsonQuestion_id,
            true_and, and_true]
          omega
      | false =>
          have hpy : pyTruthy item.question = false := h
          rw [import_json_cons_neg item rest today db hpy, ih db hwf,
              jsonNewQuestions_cons_neg db.nextQid item rest h]
          simp [List.countP_cons, h]

/-- C6: the tabular import returns the count of rows with a present,
non-empty question; each accepted row inserts a question with the
documented fallbacks (domain "General" when absent or blank, answer "",
type "free") and a companion flashcard due immediately (next_review =
today); rows without a question are skipped silently and not counted. -/
theorem import_csv_spec (rows : List CsvRow) (today : ℤ) (db : DB)
    (hwf : FlashcardsRefPast db) :
    (import_csv rows today db).2 = rows.countP csvAccepted ∧
    (import_csv rows today db).1.questions =
      db.questions ++ csvNewQuestions db.nextQid rows ∧
    (import_csv rows today db).1.flashcards =
      db.flashcards ++
        (csvNewQuestions db.nextQid rows).map (fun q => ⟨q.id, 1, 5/2, today⟩) := by
  rw [import_csv_run rows today db hwf]
  exact ⟨rfl, rfl, rfl⟩

/-- Witness for C6: importing one row without a question and one valid
row into the empty store adds exactly one question. -/
theorem import_csv_spec_witness :
    FlashcardsRefPast emptyDB ∧
    ((import_csv [exRowMissing, exRowValid] 0 emptyDB).2 =
        List.countP csvAccepted [exRowMissing, exRowValid] ∧
     (import_csv [exRowMissing, exRowValid] 0 emptyDB).1.questions =
        emptyDB.questions ++ csvNewQuestions emptyDB.nextQid [exRowMissing, exRowValid] ∧
     (import_csv [exRowMissing, exRowValid] 0 emptyDB).1.flashcards =
        emptyDB.flashcards ++
          (csvNewQuestions emptyDB.nextQid [exRowMissing, exRowValid]).map
            (fun q => ⟨q.id, 1, 5/2, 0⟩)) ∧
    (import_csv [exRowMissing, exRowValid] 0 emptyDB).2 = 1 :=
  ⟨fun f hf => absurd hf (List.not_mem_nil f),
   import_csv_spec [exRowMissing, exRowValid] 0 emptyDB
     (fun f hf => absurd hf (List.not_mem_nil f)),
   rfl⟩

/-- Counterexample to C7: a JSON record whose domain key is present but
blank is stored with the blank domain, not with "General": the fallback
`item.get(key, default)` fires only for an absent key. -/
theorem import_json_blank_domain_cex :
    (import_json [exItemBlankDomain] 0 emptyDB).1.questions.map Question.domain = [""] ∧
    ("" : String) ≠ "General" :=
  ⟨rfl, by decide⟩

/-- C7 as amended: the structured import counts and inserts exactly the
records with a present, non-null, non-empty question; for each one the
stored domain is the domain value if the key is present (even when blank)
and "General" only when absent, the answer falls back to "" and the type
to "free" when absent, and a non-empty metadata payload is passed through
to the stored question; a companion flashcard due today is created. -/
theorem import_json_spec (items : List JsonItem) (today : ℤ) (db : DB)
    (hwf : FlashcardsRefPast db) :
    (import_json items today db).2 = items.countP jsonAccepted ∧
    (import_json items today db).1.questions =
      db.questions ++ jsonNewQuestions db.nextQid items ∧
    (import_json items today db).1.flashcards =
      db.flashcards ++
        (jsonNewQuestions db.nextQid items).map (fun q => ⟨q.id, 1, 5/2, today⟩) := by
  rw [import_json_run items today db hwf]
  exact ⟨rfl, rfl, rfl⟩

/-- Witness for the amended C7: a blank-domain record and a record without
a question, imported into the empty store. -/
theorem import_json_spec_witness :
    FlashcardsRefPast emptyDB ∧
    ((import_json [exItemBlankDomain, ⟨none, none, none, none, none⟩] 0 emptyDB).2 =
        List.countP jsonAccepted [exItemBlankDomain, ⟨none, none, none, none, none⟩] ∧
     (import_json [exItemBlankDomain, ⟨none, none, none, none, none⟩] 0 emptyDB).1.questions =
        emptyDB.questions ++
          jsonNewQuestions emptyDB.nextQid [exItemBlankDomain, ⟨none, none, none, none, none⟩] ∧
     (import_json [exItemBlankDomain, ⟨none, none, none, none, none⟩] 0 emptyDB).1.flashcards =
        emptyDB.flashcards ++
          (jsonNewQuestions emptyDB.nextQid
              [exItemBlankDomain, ⟨none, none, none, none, none⟩]).map
            (fun q => ⟨q.id, 1, 5/2, 0⟩)) ∧
    (import_json [exItemBlankDomain, ⟨none, none, none, none, none⟩] 0 emptyDB).2 = 1 :=
  ⟨fun f hf => absurd hf (List.not_mem_nil f),
   import_json_spec [exItemBlankDomain, ⟨none, none, none, none, none⟩] 0 emptyDB
     (fun f hf => absurd hf (List.not_mem_nil f)),
   rfl⟩

/-! Lemmas for the export round trip. -/

lemma exportItem_accepted (q : Question) (hq : q.question ≠ "") :
    jsonAccepted ⟨some q.domain, some q.question, some q.answer, some q.qtype, none⟩ = true := by
  simp [jsonAccepted, pyTruthy, hq]

lemma jsonNewQuestions_export_tuples (l : List Question) (n : Nat)
    (hq : ∀ q ∈ l, q.question ≠ "") :
    (jsonNewQuestions n
        (l.map (fun q =>
          (⟨some q.domain, some q.question, some q.answer, some q.qtype, none⟩ : JsonItem)))).map
        qTuple =
      l.map qTuple := by
  induction l generalizing n with
  | nil => simp [jsonNewQuestions]
  | cons q rest ih =>
      simp only [List.map_cons]
      rw [jsonNewQuestions_cons_pos _ _ _ (exportItem_accepted q (hq q (List.mem_cons_self q rest)))]
      simp only [List.map_cons]
      rw [ih (n + 1) (fun x hx => hq x (List.mem_cons_of_mem q hx))]
      simp [qTuple, jsonQuestion]

lemma countP_export_items (l : List Question)
    (hq : ∀ q ∈ l, q.question ≠ "") :
    (l.map (fun q =>
        (⟨some q.domain, some q.question, some q.answer, some q.qtype, none⟩ : JsonItem))).countP
        jsonAccepted =
      l.length := by
  induction l with
  | nil => simp
  | cons q rest ih =>
      simp only [List.map_cons, List.countP_cons,
        exportItem_accepted q (hq q (List.mem_cons_self q rest)), if_true]
      rw [ih (fun x hx => hq x (List.mem_cons_of_mem q hx))]
      simp

/-- C8: the export produces one record (domain, question, answer, type)
per stored question in insertion order (equal to ascending id when the
table is id-sorted), and re-importing the exported bank reproduces exactly
the same sequence of (domain, question, answer, type) tuples, ignoring
generated ids and flashcard state. -/
theorem export_roundtrip (db db2 : DB) (today : ℤ)
    (hsort : List.Sorted idOrder db.questions)
    (hq : ∀ q ∈ db.questions, q.question ≠ "")
    (hwf2 : FlashcardsRefPast db2) :
    export_question_bank db =
      db.questions.map (fun q => ⟨q.domain, q.question, q.answer, q.qtype⟩) ∧
    ((import_json ((export_question_bank db).map ExportRec.toItem) today db2).1.questions.map
        qTuple =
      db2.questions.map qTuple ++ db.questions.map qTuple) ∧
    (import_json ((export_question_bank db).map ExportRec.toItem) today db2).2 =
      db.questions.length := by
  have hexp : export_question_bank db =
      db.questions.map (fun q => ⟨q.domain, q.question, q.answer, q.qtype⟩) := by
    unfold export_question_bank get_questions
    rw [List.Sorted.insertionSort_eq hsort]
  have hmap : (export_question_bank db).map ExportRec.toItem =
      db.questions.map (fun q =>
        (⟨some q.domain, some q.question, some q.answer, some q.qtype, none⟩ : JsonItem)) := by
    rw [hexp, List.map_map]
    simp [Function.comp, ExportRec.toItem]
  refine ⟨hexp, ?_, ?_⟩
  · rw [hmap, import_json_run _ today db2 hwf2]
    simp only [List.map_append]
    congr 1
    exact jsonNewQuestions_export_tuples db.questions db2.nextQid hq
  · rw [hmap, import_json_run _ today db2 hwf2]
    exact countP_export_items db.questions hq

/-- Witness for C8: exporting a one-question store and re-importing it
into the empty store. -/
theorem export_roundtrip_witness :
    List.Sorted idOrder exDB8.questions ∧
    (∀ q ∈ exDB8.questions, q.question ≠ "") ∧
    FlashcardsRefPast emptyDB ∧
    (export_question_bank exDB8 =
       exDB8.questions.map (fun q => ⟨q.domain, q.question, q.answer, q.qtype⟩) ∧
     ((import_json ((export_question_bank exDB8).map ExportRec.toItem) 0 emptyDB).1.questions.map
         qTuple =
       emptyDB.questions.map qTuple ++ exDB8.questions.map qTuple) ∧
     (import_json ((export_question_bank exDB8).map ExportRec.toItem) 0 emptyDB).2 =
       exDB8.questions.length) :=
  ⟨List.sorted_singleton _, by decide, fun f hf => absurd hf (List.not_mem_nil f),
   export_roundtrip exDB8 emptyDB 0 (List.sorted_singleton _) (by decide)
     (fun f hf => absurd hf (List.not_mem_nil f))⟩

lemma statsForDomain_pct (db : DB) (d : String) :
    (statsForDomain db d).pct =
      if (statsForDomain db d).attempts = 0 then 0
      else ((statsForDomain db d).correct : ℚ) / ((statsForDomain db d).attempts : ℚ) * 100 := by
  show (if 0 < (statsForDomain db d).attempts
        then ((statsForDomain db d).correct : ℚ) / ((statsForDomain db d).attempts : ℚ) * 100
        else 0) = _
  rcases Nat.eq_zero_or_pos (statsForDomain db d).attempts with h0 | hpos
  · rw [h0]
    simp
  · rw [if_pos hpos, if_neg (by omega)]

/-- C9: `stats_per_domain` returns one row per distinct domain of a stored
question; each row carries attempts = the number of attempt rows joined to
that domain, correct = the sum of their flags, and pct = correct divided
by attempts times 100 guarded to 0 when attempts is 0 (so a domain with no
attempts yields pct 0 and no division is attempted); rows are ordered by
attempts descending. -/
theorem stats_per_domain_spec (db : DB) :
    (∀ s ∈ stats_per_domain db,
        (∃ q ∈ db.questions, q.domain = s.domain) ∧
        s.attempts =
          ((db.questions.filter (fun q => q.domain == s.domain)).flatMap (fun q =>
              db.attempts.filter (fun a => a.question_id == q.id))).length ∧
        s.correct =
          ((((db.questions.filter (fun q => q.domain == s.domain)).flatMap (fun q =>
              db.attempts.filter (fun a => a.question_id == q.id))).map
              (fun a => a.correct)).sum) ∧
        s.pct = (if s.attempts = 0 then 0 else (s.correct : ℚ) / (s.attempts : ℚ) * 100)) ∧
    (∀ d : String, (∃ q ∈ db.questions, q.domain = d) →
        ∃ s ∈ stats_per_domain db, s.domain = d) ∧
    List.Sorted statOrder (stats_per_domain db) := by
  refine ⟨?_, ?_, List.sorted_insertionSort statOrder _⟩
  · intro s hs
    rw [stats_per_domain, List.mem_insertionSort] at hs
    rcases List.mem_map.mp hs with ⟨d, hd, rfl⟩
    rw [List.mem_dedup] at hd
    rcases List.mem_map.mp hd with ⟨q, hq, rfl⟩
    exact ⟨⟨q, hq, rfl⟩, rfl, rfl, statsForDomain_pct db q.domain⟩
  · rintro d ⟨q, hq, rfl⟩
    refine ⟨statsForDomain db q.domain, ?_, rfl⟩
    rw [stats_per_domain, List.mem_insertionSort]
    exact List.mem_map.mpr
      ⟨q.domain, List.mem_dedup.mpr (List.mem_map.mpr ⟨q, hq, rfl⟩), rfl⟩

/-! Lemmas for the shadowing single-file import functions. -/

lemma secapp_import_csv_run (rows : List CsvRow) (db : DB) :
    SecurityApp.import_csv rows db =
      ({ questions := db.questions ++ csvNewQuestions db.nextQid rows,
         attempts := db.attempts,
         flashcards := db.flashcards,
         nextQid := db.nextQid + rows.countP csvAccepted },
       rows.countP csvAccepted) := by
  induction rows generalizing db with
  | nil =>
      cases db
      simp [SecurityApp.import_csv, csvNewQuestions]
  | cons row rest ih =>
      cases h : csvAccepted row with
      | true =>
          have hpy : pyTruthy (pyOr (row "question") (row "Question")) = true := h
          simp only [SecurityApp.import_csv, hpy, if_true]
          rw [ih, csvNewQuestions_cons_pos db.nextQid row rest h]
          simp only [add_question, csvQuestion, pyMetaStore, pyTruthy, Prod.mk.injEq,
            DB.mk.injEq, List.countP_cons, h, if_true, List.append_assoc,
            List.singleton_append, Bool.false_eq_true, if_false, true_and, and_true]
          omega
      | false =>
          have hpy : pyTruthy (pyOr (row "question") (row "Question")) = false := h
          simp only [SecurityApp.import_csv, hpy, Bool.false_eq_true, if_false]
          rw [ih, csvNewQuestions_cons_neg db.nextQid row rest h]
          simp [List.countP_cons, h]

lemma secapp_import_json_run (items : List JsonItem) (db : DB) :
    SecurityApp.import_json items db =
      ({ questions := db.questions ++ jsonNewQuestions db.nextQid items,
         attempts := db.attempts,
         flashcards := db.flashcards,
         nextQid := db.nextQid + items.countP jsonAccepted },
       items.countP jsonAccepted) := by
  induction items generalizing db with
  | nil =>
      cases db
      simp [SecurityApp.import_json, jsonNewQuestions]
  | cons item rest ih =>
      cases h : jsonAccepted item with
      | true =>
          have hpy : pyTruthy item.question = true := h
          simp only [SecurityApp.import_json, hpy, if_true]
          rw [ih, jsonNewQuestions_cons_pos db.nextQid item rest h]
          simp only [add_question, jsonQuestion, pyMetaStore, pyTruthy, Prod.mk.injEq,
            DB.mk.injEq, List.countP_cons, h, if_true, List.append_assoc,
            List.singleton_append, Bool.false_eq_true, if_false, true_and, and_true]
          omega
      | false =>
          have hpy : pyTruthy item.question = false := h
          simp only [SecurityApp.import_json, hpy, Bool.false_eq_true, if_false]
          rw [ih, jsonNewQuestions_cons_neg db.nextQid item rest h]
          simp [List.countP_cons, h]

/-- C10: the `import_csv`/`import_json` defined in `security_app.py`, which
shadow the `app_core` versions inside the single-file app, insert the same
questions and return the same added count as the `app_core` versions, but
never create a companion flashcards row; consequently a question imported
through them appears in no due list, until its first `schedule_update`
creates the row (due the following day). -/
theorem securityApp_import_shadow (rows : List CsvRow) (items : List JsonItem)
    (today : ℤ) (db : DB) (hwf : FlashcardsRefPast db) :
    (SecurityApp.import_csv rows db).2 = (import_csv rows today db).2 ∧
    (SecurityApp.import_csv rows db).1.questions =
      (import_csv rows today db).1.questions ∧
    (SecurityApp.import_csv rows db).1.flashcards = db.flashcards ∧
    (SecurityApp.import_json items db).2 = (import_json items today db).2 ∧
    (SecurityApp.import_json items db).1.questions =
      (import_json items today db).1.questions ∧
    (SecurityApp.import_json items db).1.flashcards = db.flashcards ∧
    (∀ q ∈ csvNewQuestions db.nextQid rows, ∀ t : ℤ,
        ∀ p ∈ due_flashcards t (SecurityApp.import_csv rows db).1, p.2.id ≠ q.id) ∧
    (∀ q ∈ csvNewQuestions db.nextQid rows, ∀ quality : ℤ,
        (⟨q.id, 1, 5/2, today + 1⟩, q) ∈
          due_flashcards (today + 1)
            (schedule_update q.id quality today (SecurityApp.import_csv rows db).1)) := by
  rw [secapp_import_csv_run rows db, secapp_import_json_run items db,
      import_csv_run rows today db hwf, import_json_run items today db hwf]
  refine ⟨rfl, rfl, rfl, rfl, rfl, rfl, ?_, ?_⟩
  · intro q hq t p hp
    rw [mem_due_flashcards] at hp
    have hfl : p.1.question_id < db.nextQid := hwf p.1 hp.1
    have hid : db.nextQid ≤ q.id := csvNewQuestions_id_ge rows db.nextQid q hq
    have := hp.2.2.1
    omega
  · intro q hq quality
    have hid : db.nextQid ≤ q.id := csvNewQuestions_id_ge rows db.nextQid q hq
    have hnone :
        (List.find? (fun f => f.question_id == q.id)
          (({ questions := db.questions ++ csvNewQuestions db.nextQid rows,
              attempts := db.attempts, flashcards := db.flashcards,
              nextQid := db.nextQid + List.countP csvAccepted rows } : DB)).flashcards) =
          none := by
      rw [List.find?_eq_none]
      intro f hf
      have := hwf f hf
      simp only [beq_iff_eq]
      omega
    rw [schedule_update_of_absent q.id quality today _ hnone]
    rw [mem_due_flashcards]
    refine ⟨List.mem_append.mpr (Or.inr (List.mem_singleton.mpr rfl)), ?_, rfl, le_refl _⟩
    exact List.mem_append.mpr (Or.inr hq)

/-- Witness for C10: one valid row imported through the single-file app
on the empty store. -/
theorem securityApp_import_shadow_witness :
    FlashcardsRefPast emptyDB ∧
    ((SecurityApp.import_csv [exRowValid] emptyDB).2 =
        (import_csv [exRowValid] 0 emptyDB).2 ∧
     (SecurityApp.import_csv [exRowValid] emptyDB).1.questions =
        (import_csv [exRowValid] 0 emptyDB).1.questions ∧
     (SecurityApp.import_csv [exRowValid] emptyDB).1.flashcards = emptyDB.flashcards ∧
     (SecurityApp.import_json [] emptyDB).2 = (import_json [] 0 emptyDB).2 ∧
     (SecurityApp.import_json [] emptyDB).1.questions =
        (import_json [] 0 emptyDB).1.questions ∧
     (SecurityApp.import_json [] emptyDB).1.flashcards = emptyDB.flashcards ∧
     (∀ q ∈ csvNewQuestions emptyDB.nextQid [exRowValid], ∀ t : ℤ,
         ∀ p ∈ due_flashcards t (SecurityApp.import_csv [exRowValid] emptyDB).1,
           p.2.id ≠ q.id) ∧
     (∀ q ∈ csvNewQuestions emptyDB.nextQid [exRowValid], ∀ quality : ℤ,
         (⟨q.id, 1, 5/2, 0 + 1⟩, q) ∈
           due_flashcards (0 + 1)
             (schedule_update q.id quality 0 (SecurityApp.import_csv [exRowValid] emptyDB).1))) :=
  ⟨fun f hf => absurd hf (List.not_mem_nil f),
   securityApp_import_shadow [exRowValid] [] 0 emptyDB
     (fun f hf => absurd hf (List.not_mem_nil f))⟩
